import Mathlib

/-!
Verification of the schema AST model and decode error aggregation.

Shallow embedding of `src/src/AST.ts` (AST node kinds, smart constructors,
cardinality/weight ordering heuristics, `keyof`, `record`, tuple append
operations, `partial`) and of the parse-error model (`ParseError` and its
variants). TypeScript exceptions are modelled with `Except String`,
`Option` stays `Option`, annotation maps are modelled as association
lists, JS symbols by numeric identifiers, and the `Lazy` producer by the
AST it produces (producers are pure). `ReadonlyArray.uniq` (first
occurrence kept, structural equality) is modelled by `uniqList`, and the
stable JS `Array.sort` by `List.insertionSort`.
-/

set_option maxHeartbeats 2000000

namespace Schema

/-- Annotation maps (`Record<string | symbol, unknown>`), modelled as an
association list with decidable equality. -/
abbrev Annotations : Type := List (String × Nat)

/-- `Literal = string | number | boolean | null | bigint`. -/
inductive Literal where
  | lstr (s : String)
  | lnum (n : Int)
  | lbool (b : Bool)
  | lnull
  | lbig (n : Int)
deriving DecidableEq

/-- `PropertyKey = string | number | symbol`; symbols are identified by a
numeric id. -/
inductive PropertyKey where
  | pstr (s : String)
  | pnum (n : Int)
  | psym (id : Nat)
deriving DecidableEq

/-- The domain of an index signature key: `"string" | "number" | "symbol"`. -/
inductive ISKey where
  | str
  | num
  | sym
deriving DecidableEq

mutual

/-- The `AST` tagged union from `src/src/AST.ts`. -/
inductive AST where
  | typeAlias (typeParameters : List AST) (type_ : AST) (annotations : Annotations)
  | literalType (literal : Literal) (annotations : Annotations)
  | uniqueSymbol (symbol : Nat) (annotations : Annotations)
  | undefinedKeyword (annotations : Annotations)
  | voidKeyword (annotations : Annotations)
  | neverKeyword (annotations : Annotations)
  | unknownKeyword (annotations : Annotations)
  | anyKeyword (annotations : Annotations)
  | stringKeyword (annotations : Annotations)
  | numberKeyword (annotations : Annotations)
  | booleanKeyword (annotations : Annotations)
  | bigIntKeyword (annotations : Annotations)
  | symbolKeyword (annotations : Annotations)
  | objectKeyword (annotations : Annotations)
  | tuple (elements : List Element) (rest : Option (AST × List AST))
      (isReadonly : Bool) (annotations : Annotations) (allowUnexpected : Bool)
  | struct (fields : List Field) (indexSignatures : List IndexSignature)
      (annotations : Annotations) (allowUnexpected : Bool)
  | union (members : List AST) (annotations : Annotations)
  | lazy (thunk : AST) (annotations : Annotations)
  | enums (enums : List (String × Literal)) (annotations : Annotations)
  | refinement (from_ : AST) (refinementId : Nat) (meta : Nat) (annotations : Annotations)

/-- A tuple `Element`: `{ type, isOptional, annotations }`. -/
inductive Element where
  | mk (type_ : AST) (isOptional : Bool) (annotations : Annotations)

/-- A struct `Field`: `{ key, value, isOptional, isReadonly, annotations }`. -/
inductive Field where
  | mk (key : PropertyKey) (value : AST) (isOptional : Bool) (isReadonly : Bool)
      (annotations : Annotations)

/-- An `IndexSignature`: `{ key, value, isReadonly, annotations }`. -/
inductive IndexSignature where
  | mk (key : ISKey) (value : AST) (isReadonly : Bool) (annotations : Annotations)

end

mutual

/-- Structural equality on `AST` nodes, the "structural identity" used by
`ReadonlyArray.uniq` when the union constructor removes duplicates. -/
def astBeq : AST → AST → Bool
  | .typeAlias ps t ann, b =>
      match b with
      | .typeAlias ps2 t2 ann2 => astBeqList ps ps2 && astBeq t t2 && decide (ann = ann2)
      | _ => false
  | .literalType l ann, b =>
      match b with
      | .literalType l2 ann2 => decide (l = l2) && decide (ann = ann2)
      | _ => false
  | .uniqueSymbol s ann, b =>
      match b with
      | .uniqueSymbol s2 ann2 => decide (s = s2) && decide (ann = ann2)
      | _ => false
  | .undefinedKeyword ann, b =>
      match b with
      | .undefinedKeyword ann2 => decide (ann = ann2)
      | _ => false
  | .voidKeyword ann, b =>
      match b with
      | .voidKeyword ann2 => decide (ann = ann2)
      | _ => false
  | .neverKeyword ann, b =>
      match b with
      | .neverKeyword ann2 => decide (ann = ann2)
      | _ => false
  | .unknownKeyword ann, b =>
      match b with
      | .unknownKeyword ann2 => decide (ann = ann2)
      | _ => false
  | .anyKeyword ann, b =>
      match b with
      | .anyKeyword ann2 => decide (ann = ann2)
      | _ => false
  | .stringKeyword ann, b =>
      match b with
      | .stringKeyword ann2 => decide (ann = ann2)
      | _ => false
  | .numberKeyword ann, b =>
      match b with
      | .numberKeyword ann2 => decide (ann = ann2)
      | _ => false
  | .booleanKeyword ann, b =>
      match b with
      | .booleanKeyword ann2 => decide (ann = ann2)
      | _ => false
  | .bigIntKeyword ann, b =>
      match b with
      | .bigIntKeyword ann2 => decide (ann = ann2)
      | _ => false
  | .symbolKeyword ann, b =>
      match b with
      | .symbolKeyword ann2 => decide (ann = ann2)
      | _ => false
  | .objectKeyword ann, b =>
      match b with
      | .objectKeyword ann2 => decide (ann = ann2)
      | _ => false
  | .tuple es r ro ann au, b =>
      match b with
      | .tuple es2 r2 ro2 ann2 au2 =>
          elementBeqList es es2 && restBeq r r2 && decide (ro = ro2) &&
            decide (ann = ann2) && decide (au = au2)
      | _ => false
  | .struct fs is ann au, b =>
      match b with
      | .struct fs2 is2 ann2 au2 =>
          fieldBeqList fs fs2 && indexSignatureBeqList is is2 && decide (ann = ann2) &&
            decide (au = au2)
      | _ => false
  | .union ms ann, b =>
      match b with
      | .union ms2 ann2 => astBeqList ms ms2 && decide (ann = ann2)
      | _ => false
  | .lazy t ann, b =>
      match b with
      | .lazy t2 ann2 => astBeq t t2 && decide (ann = ann2)
      | _ => false
  | .enums e ann, b =>
      match b with
      | .enums e2 ann2 => decide (e = e2) && decide (ann = ann2)
      | _ => false
  | .refinement f rid m ann, b =>
      match b with
      | .refinement f2 rid2 m2 ann2 =>
          astBeq f f2 && decide (rid = rid2) && decide (m = m2) && decide (ann = ann2)
      | _ => false
termination_by structural a _ => a

def astBeqList : List AST → List AST → Bool
  | [], [] => true
  | a :: as, b :: bs => astBeq a b && astBeqList as bs
  | _, _ => false
termination_by structural l _ => l

def restBeq : Option (AST × List AST) → Option (AST × List AST) → Bool
  | none, none => true
  | some (a, as), some (b, bs) => astBeq a b && astBeqList as bs
  | _, _ => false
termination_by structural r _ => r

def elementBeq : Element → Element → Bool
  | .mk t o ann, .mk t2 o2 ann2 => astBeq t t2 && decide (o = o2) && decide (ann = ann2)
termination_by structural e _ => e

def elementBeqList : List Element → List Element → Bool
  | [], [] => true
  | a :: as, b :: bs => elementBeq a b && elementBeqList as bs
  | _, _ => false
termination_by structural l _ => l

def fieldBeq : Field → Field → Bool
  | .mk k v o r ann, .mk k2 v2 o2 r2 ann2 =>
      decide (k = k2) && astBeq v v2 && decide (o = o2) && decide (r = r2) && decide (ann = ann2)
termination_by structural f _ => f

def fieldBeqList : List Field → List Field → Bool
  | [], [] => true
  | a :: as, b :: bs => fieldBeq a b && fieldBeqList as bs
  | _, _ => false
termination_by structural l _ => l

def indexSignatureBeq : IndexSignature → IndexSignature → Bool
  | .mk k v r ann, .mk k2 v2 r2 ann2 =>
      decide (k = k2) && astBeq v v2 && decide (r = r2) && decide (ann = ann2)
termination_by structural i _ => i

def indexSignatureBeqList : List IndexSignature → List IndexSignature → Bool
  | [], [] => true
  | a :: as, b :: bs => indexSignatureBeq a b && indexSignatureBeqList as bs
  | _, _ => false
termination_by structural l _ => l

end

mutual

theorem astBeq_refl : ∀ a : AST, astBeq a a = true
  | .typeAlias ps t _ => by simp [astBeq, astBeq_refl t, astBeqList_refl ps]
  | .literalType _ _ => by simp [astBeq]
  | .uniqueSymbol _ _ => by simp [astBeq]
  | .undefinedKeyword _ => by simp [astBeq]
  | .voidKeyword _ => by simp [astBeq]
  | .neverKeyword _ => by simp [astBeq]
  | .unknownKeyword _ => by simp [astBeq]
  | .anyKeyword _ => by simp [astBeq]
  | .stringKeyword _ => by simp [astBeq]
  | .numberKeyword _ => by simp [astBeq]
  | .booleanKeyword _ => by simp [astBeq]
  | .bigIntKeyword _ => by simp [astBeq]
  | .symbolKeyword _ => by simp [astBeq]
  | .objectKeyword _ => by simp [astBeq]
  | .tuple es r _ _ _ => by simp [astBeq, elementBeqList_refl es, restBeq_refl r]
  | .struct fs is _ _ => by
      simp [astBeq, fieldBeqList_refl fs, indexSignatureBeqList_refl is]
  | .union ms _ => by simp [astBeq, astBeqList_refl ms]
  | .lazy t _ => by simp [astBeq, astBeq_refl t]
  | .enums _ _ => by simp [astBeq]
  | .refinement f _ _ _ => by simp [astBeq, astBeq_refl f]

theorem astBeqList_refl : ∀ as : List AST, astBeqList as as = true
  | [] => by simp [astBeqList]
  | a :: as => by simp [astBeqList, astBeq_refl a, astBeqList_refl as]

theorem restBeq_refl : ∀ r : Option (AST × List AST), restBeq r r = true
  | none => by simp [restBeq]
  | some (a, as) => by simp [restBeq, astBeq_refl a, astBeqList_refl as]

theorem elementBeq_refl : ∀ e : Element, elementBeq e e = true
  | .mk t _ _ => by simp [elementBeq, astBeq_refl t]

theorem elementBeqList_refl : ∀ es : List Element, elementBeqList es es = true
  | [] => by simp [elementBeqList]
  | e :: es => by simp [elementBeqList, elementBeq_refl e, elementBeqList_refl es]

theorem fieldBeq_refl : ∀ f : Field, fieldBeq f f = true
  | .mk _ v _ _ _ => by simp [fieldBeq, astBeq_refl v]

theorem fieldBeqList_refl : ∀ fs : List Field, fieldBeqList fs fs = true
  | [] => by simp [fieldBeqList]
  | f :: fs => by simp [fieldBeqList, fieldBeq_refl f, fieldBeqList_refl fs]

theorem indexSignatureBeq_refl : ∀ i : IndexSignature, indexSignatureBeq i i = true
  | .mk _ v _ _ => by simp [indexSignatureBeq, astBeq_refl v]

theorem indexSignatureBeqList_refl : ∀ is : List IndexSignature,
    indexSignatureBeqList is is = true
  | [] => by simp [indexSignatureBeqList]
  | i :: is => by
      simp [indexSignatureBeqList, indexSignatureBeq_refl i, indexSignatureBeqList_refl is]

end

mutual

theorem astBeq_sound : ∀ a b : AST, astBeq a b = true → a = b := fun a b h => by
  cases a <;> cases b <;>
    simp only [astBeq, Bool.and_eq_true, decide_eq_true_eq, Bool.false_eq_true] at h
  case typeAlias.typeAlias ps t ann ps2 t2 ann2 =>
    rw [astBeqList_sound ps ps2 h.1.1, astBeq_sound t t2 h.1.2, h.2]
  case literalType.literalType => rw [h.1, h.2]
  case uniqueSymbol.uniqueSymbol => rw [h.1, h.2]
  case undefinedKeyword.undefinedKeyword => rw [h]
  case voidKeyword.voidKeyword => rw [h]
  case neverKeyword.neverKeyword => rw [h]
  case unknownKeyword.unknownKeyword => rw [h]
  case anyKeyword.anyKeyword => rw [h]
  case stringKeyword.stringKeyword => rw [h]
  case numberKeyword.numberKeyword => rw [h]
  case booleanKeyword.booleanKeyword => rw [h]
  case bigIntKeyword.bigIntKeyword => rw [h]
  case symbolKeyword.symbolKeyword => rw [h]
  case objectKeyword.objectKeyword => rw [h]
  case tuple.tuple es r ro ann au es2 r2 ro2 ann2 au2 =>
    rw [elementBeqList_sound es es2 h.1.1.1.1, restBeq_sound r r2 h.1.1.1.2,
      h.1.1.2, h.1.2, h.2]
  case struct.struct fs is ann au fs2 is2 ann2 au2 =>
    rw [fieldBeqList_sound fs fs2 h.1.1.1, indexSignatureBeqList_sound is is2 h.1.1.2,
      h.1.2, h.2]
  case union.union ms ann ms2 ann2 => rw [astBeqList_sound ms ms2 h.1, h.2]
  case lazy.lazy t ann t2 ann2 => rw [astBeq_sound t t2 h.1, h.2]
  case enums.enums => rw [h.1, h.2]
  case refinement.refinement f rid m ann f2 rid2 m2 ann2 =>
    rw [astBeq_sound f f2 h.1.1.1, h.1.1.2, h.1.2, h.2]

theorem astBeqList_sound : ∀ as bs : List AST, astBeqList as bs = true → as = bs :=
  fun as bs h => by
  cases as <;> cases bs <;> simp only [astBeqList, Bool.and_eq_true, Bool.false_eq_true] at h
  case nil.nil => rfl
  case cons.cons a as b bs => rw [astBeq_sound a b h.1, astBeqList_sound as bs h.2]

theorem restBeq_sound : ∀ r1 r2 : Option (AST × List AST), restBeq r1 r2 = true → r1 = r2 :=
  fun r1 r2 h => by
  match r1, r2 with
  | none, none => rfl
  | none, some (b, bs) => simp [restBeq] at h
  | some (a, as), none => simp [restBeq] at h
  | some (a, as), some (b, bs) =>
    simp only [restBeq, Bool.and_eq_true] at h
    rw [astBeq_sound a b h.1, astBeqList_sound as bs h.2]

theorem elementBeq_sound : ∀ e1 e2 : Element, elementBeq e1 e2 = true → e1 = e2 :=
  fun e1 e2 h => by
  match e1, e2 with
  | .mk t o ann, .mk t2 o2 ann2 =>
    simp only [elementBeq, Bool.and_eq_true, decide_eq_true_eq] at h
    rw [astBeq_sound t t2 h.1.1, h.1.2, h.2]

theorem elementBeqList_sound : ∀ es1 es2 : List Element,
    elementBeqList es1 es2 = true → es1 = es2 := fun es1 es2 h => by
  cases es1 <;> cases es2 <;> simp only [elementBeqList, Bool.and_eq_true, Bool.false_eq_true] at h
  case nil.nil => rfl
  case cons.cons e es e2 es2 =>
    rw [elementBeq_sound e e2 h.1, elementBeqList_sound es es2 h.2]

theorem fieldBeq_sound : ∀ f1 f2 : Field, fieldBeq f1 f2 = true → f1 = f2 :=
  fun f1 f2 h => by
  match f1, f2 with
  | .mk k v o r ann, .mk k2 v2 o2 r2 ann2 =>
    simp only [fieldBeq, Bool.and_eq_true, decide_eq_true_eq] at h
    rw [h.1.1.1.1, astBeq_sound v v2 h.1.1.1.2, h.1.1.2, h.1.2, h.2]

theorem fieldBeqList_sound : ∀ fs1 fs2 : List Field,
    fieldBeqList fs1 fs2 = true → fs1 = fs2 := fun fs1 fs2 h => by
  cases fs1 <;> cases fs2 <;> simp only [fieldBeqList, Bool.and_eq_true, Bool.false_eq_true] at h
  case nil.nil => rfl
  case cons.cons f fs f2 fs2 =>
    rw [fieldBeq_sound f f2 h.1, fieldBeqList_sound fs fs2 h.2]

theorem indexSignatureBeq_sound : ∀ i1 i2 : IndexSignature,
    indexSignatureBeq i1 i2 = true → i1 = i2 := fun i1 i2 h => by
  match i1, i2 with
  | .mk k v r ann, .mk k2 v2 r2 ann2 =>
    simp only [indexSignatureBeq, Bool.and_eq_true, decide_eq_true_eq] at h
    rw [h.1.1.1, astBeq_sound v v2 h.1.1.2, h.1.2, h.2]

theorem indexSignatureBeqList_sound : ∀ is1 is2 : List IndexSignature,
    indexSignatureBeqList is1 is2 = true → is1 = is2 := fun is1 is2 h => by
  cases is1 <;> cases is2 <;> simp only [indexSignatureBeqList, Bool.and_eq_true, Bool.false_eq_true] at h
  case nil.nil => rfl
  case cons.cons i is i2 is2 =>
    rw [indexSignatureBeq_sound i i2 h.1, indexSignatureBeqList_sound is is2 h.2]

end

instance : DecidableEq AST := fun a b =>
  if h : astBeq a b = true then .isTrue (astBeq_sound a b h)
  else .isFalse fun e => h (by rw [e]; exact astBeq_refl b)

instance : DecidableEq Element := fun a b =>
  if h : elementBeq a b = true then .isTrue (elementBeq_sound a b h)
  else .isFalse fun e => h (by rw [e]; exact elementBeq_refl b)

instance : DecidableEq Field := fun a b =>
  if h : fieldBeq a b = true then .isTrue (fieldBeq_sound a b h)
  else .isFalse fun e => h (by rw [e]; exact fieldBeq_refl b)

instance : DecidableEq IndexSignature := fun a b =>
  if h : indexSignatureBeq a b = true then .isTrue (indexSignatureBeq_sound a b h)
  else .isFalse fun e => h (by rw [e]; exact indexSignatureBeq_refl b)

def Element.type_ : Element → AST
  | .mk t _ _ => t

def Element.isOptional : Element → Bool
  | .mk _ o _ => o

def Element.annotations : Element → Annotations
  | .mk _ _ a => a

def Field.key : Field → PropertyKey
  | .mk k _ _ _ _ => k

def Field.value : Field → AST
  | .mk _ v _ _ _ => v

def Field.isOptional : Field → Bool
  | .mk _ _ o _ _ => o

def Field.isReadonly : Field → Bool
  | .mk _ _ _ r _ => r

def Field.annotations : Field → Annotations
  | .mk _ _ _ _ a => a

def IndexSignature.key : IndexSignature → ISKey
  | .mk k _ _ _ => k

def IndexSignature.value : IndexSignature → AST
  | .mk _ v _ _ => v

def IndexSignature.isReadonly : IndexSignature → Bool
  | .mk _ _ r _ => r

def IndexSignature.annotations : IndexSignature → Annotations
  | .mk _ _ _ a => a

/-- `getCardinality` from `src/src/AST.ts`: selectivity heuristic ordering
struct fields and index signatures. -/
def getCardinality : AST → Nat
  | .typeAlias _ t _ => getCardinality t
  | .neverKeyword _ => 0
  | .literalType _ _ => 1
  | .undefinedKeyword _ => 1
  | .uniqueSymbol _ _ => 1
  | .booleanKeyword _ => 2
  | .stringKeyword _ => 3
  | .numberKeyword _ => 3
  | .bigIntKeyword _ => 3
  | .symbolKeyword _ => 3
  | .unknownKeyword _ => 4
  | .anyKeyword _ => 4
  | _ => 5

mutual

/-- `getWeight` from `src/src/AST.ts`: structural complexity heuristic
ordering union members. -/
def getWeight : AST → Nat
  | .typeAlias _ t _ => getWeight t
  | .tuple es r _ _ _ => es.length + (if r.isSome then 1 else 0)
  | .struct fs is _ _ => fs.length + is.length
  | .union ms _ => getWeightList ms
  | .lazy _ _ => 10
  | _ => 0
termination_by structural a => a

/-- Sum of `getWeight` over a member list (the `reduce` in the `Union`
case of `getWeight`). -/
def getWeightList : List AST → Nat
  | [] => 0
  | a :: as => getWeight a + getWeightList as
termination_by structural l => l

end

/-- The descending-weight comparison used by `sortByWeightDesc`
(`Order.reverse` of `Number.Order` contramapped through `getWeight`). -/
def weightGE (a b : AST) : Prop := getWeight b ≤ getWeight a

instance : DecidableRel weightGE := fun _ _ => Nat.decLe _ _

instance : IsTotal AST weightGE :=
  ⟨fun a b => (Nat.le_total (getWeight b) (getWeight a)).elim Or.inl Or.inr⟩

instance : IsTrans AST weightGE :=
  ⟨fun _ _ _ h1 h2 => Nat.le_trans h2 h1⟩

/-- `sortByWeightDesc`: stable sort of union members, descending by weight
(JS `Array.sort` is stable, modelled by insertion sort). -/
def sortByWeightDesc (l : List AST) : List AST := List.insertionSort weightGE l

/-- The ascending-cardinality comparison on struct fields used by
`sortByCardinalityAsc` (`Number.Order` contramapped through the
cardinality of the `value` type). -/
def fieldCardLE (a b : Field) : Prop := getCardinality a.value ≤ getCardinality b.value

instance : DecidableRel fieldCardLE := fun _ _ => Nat.decLe _ _

instance : IsTotal Field fieldCardLE :=
  ⟨fun a b => (Nat.le_total (getCardinality a.value) (getCardinality b.value)).elim Or.inl Or.inr⟩

instance : IsTrans Field fieldCardLE :=
  ⟨fun _ _ _ h1 h2 => Nat.le_trans h1 h2⟩

/-- The ascending-cardinality comparison on index signatures. -/
def indexSignatureCardLE (a b : IndexSignature) : Prop :=
  getCardinality a.value ≤ getCardinality b.value

instance : DecidableRel indexSignatureCardLE := fun _ _ => Nat.decLe _ _

instance : IsTotal IndexSignature indexSignatureCardLE :=
  ⟨fun a b => (Nat.le_total (getCardinality a.value) (getCardinality b.value)).elim Or.inl Or.inr⟩

instance : IsTrans IndexSignature indexSignatureCardLE :=
  ⟨fun _ _ _ h1 h2 => Nat.le_trans h1 h2⟩

/-- `sortByCardinalityAsc` on fields. -/
def sortFieldsByCardinalityAsc (l : List Field) : List Field :=
  List.insertionSort fieldCardLE l

/-- `sortByCardinalityAsc` on index signatures. -/
def sortIndexSignaturesByCardinalityAsc (l : List IndexSignature) : List IndexSignature :=
  List.insertionSort indexSignatureCardLE l

/-- The accumulating loop of `ReadonlyArray.uniq`: push each element not
already present. -/
def uniqAppend {α : Type} [DecidableEq α] (acc : List α) : List α → List α
  | [] => acc
  | a :: as => if a ∈ acc then uniqAppend acc as else uniqAppend (acc ++ [a]) as

/-- `ReadonlyArray.uniq`: removes duplicates, keeping the first occurrence
of each element. -/
def uniqList {α : Type} [DecidableEq α] (l : List α) : List α := uniqAppend [] l

/-- The `struct` smart constructor: stores fields and index signatures
sorted ascending by cardinality. -/
def struct (fields : List Field) (indexSignatures : List IndexSignature)
    (annotations : Annotations) (allowUnexpected : Bool) : AST :=
  .struct (sortFieldsByCardinalityAsc fields)
    (sortIndexSignaturesByCardinalityAsc indexSignatures) annotations allowUnexpected

/-- One step of the `flatMap` in the `union` smart constructor: a candidate
that is itself a union is replaced by its members. -/
def flattenCandidate : AST → List AST
  | .union ms _ => ms
  | a => [a]

/-- The flattened candidate list of the `union` smart constructor. -/
def flattenCandidates (candidates : List AST) : List AST :=
  candidates.flatMap flattenCandidate

/-- The `union` smart constructor: flattens nested unions, removes
structural duplicates, collapses `0`/`1` member unions, and sorts the
remaining members descending by weight. -/
def union (candidates : List AST) (annotations : Annotations) : AST :=
  match uniqList (flattenCandidates candidates) with
  | [] => .neverKeyword annotations
  | [a] => a
  | u => .union (sortByWeightDesc u) annotations

/-- The `tuple` smart constructor (the `Tuple` interface itself, with the
non-empty rest array modelled as head and tail). -/
structure TupleS where
  elements : List Element
  rest : Option (AST × List AST)
  isReadonly : Bool
  annotations : Annotations
  allowUnexpected : Bool
deriving DecidableEq

/-- `tuple` from `src/src/AST.ts` (the `allowUnexpected` argument defaults
to `false` at every call site modelled here). -/
def tuple (elements : List Element) (rest : Option (AST × List AST)) (isReadonly : Bool)
    (annotations : Annotations) (allowUnexpected : Bool) : TupleS :=
  ⟨elements, rest, isReadonly, annotations, allowUnexpected⟩

/-- View of a `TupleS` as an `AST` node. -/
def TupleS.toAST (t : TupleS) : AST :=
  .tuple t.elements t.rest t.isReadonly t.annotations t.allowUnexpected

/-- `appendRestElement`: fails if the tuple already has a rest element,
otherwise starts a singleton rest array. -/
def appendRestElement (ast : TupleS) (restElement : AST) (annotations : Annotations) :
    Except String TupleS :=
  match ast.rest with
  | some _ => .error "A rest element cannot follow another rest element. ts(1265)"
  | none => .ok (tuple ast.elements (some (restElement, [])) ast.isReadonly annotations false)

/-- `appendElement`: fails when a required element would follow an optional
one, or an optional element would follow a rest element. -/
def appendElement (ast : TupleS) (newElement : Element) (annotations : Annotations) :
    Except String TupleS :=
  if ast.elements.any (fun e => e.isOptional) && !newElement.isOptional then
    .error "A required element cannot follow an optional element. ts(1257)"
  else
    match ast.rest with
    | none =>
        .ok (tuple (ast.elements ++ [newElement]) none ast.isReadonly annotations false)
    | some (h, t) =>
        if newElement.isOptional then
          .error "An optional element cannot follow a rest element. ts(1266)"
        else
          .ok (tuple ast.elements (some (h, t ++ [newElement.type_])) ast.isReadonly
            annotations false)

/-- The global `string` AST constant. -/
def stringC : AST := .stringKeyword []

/-- The global `number` AST constant. -/
def numberC : AST := .numberKeyword []

/-- The global `symbol` AST constant. -/
def symbolC : AST := .symbolKeyword []

/-- The global `never` AST constant. -/
def neverC : AST := .neverKeyword []

/-- The stored field list of a `Struct` node (empty for any other node). -/
def fieldsOf : AST → List Field
  | .struct fs _ _ _ => fs
  | _ => []

/-- The stored index-signature list of a `Struct` node (empty for any
other node). -/
def indexSignaturesOf : AST → List IndexSignature
  | .struct _ is _ _ => is
  | _ => []

theorem uniqAppend_nodup {α : Type} [DecidableEq α] (l : List α) :
    ∀ acc : List α, acc.Nodup → (uniqAppend acc l).Nodup := by
  induction l with
  | nil => intro acc h; simpa [uniqAppend] using h
  | cons a as ih =>
    intro acc h
    by_cases hm : a ∈ acc
    · simpa [uniqAppend, hm] using ih acc h
    · simp only [uniqAppend, hm, if_false]
      exact ih _ (by simp [List.nodup_append, h, hm])

/-- `uniqList` output has no duplicates. -/
theorem uniqList_nodup {α : Type} [DecidableEq α] (l : List α) : (uniqList l).Nodup :=
  uniqAppend_nodup l [] List.nodup_nil

theorem uniqAppend_subset {α : Type} [DecidableEq α] (l : List α) :
    ∀ acc : List α, ∀ x, x ∈ uniqAppend acc l → x ∈ acc ∨ x ∈ l := by
  induction l with
  | nil => intro acc x h; exact Or.inl (by simpa [uniqAppend] using h)
  | cons a as ih =>
    intro acc x h
    by_cases hm : a ∈ acc
    · rcases ih acc x (by simpa [uniqAppend, hm] using h) with h1 | h1
      · exact Or.inl h1
      · exact Or.inr (List.mem_cons_of_mem a h1)
    · simp only [uniqAppend, hm, if_false] at h
      rcases ih _ x h with h1 | h1
      · rcases List.mem_append.mp h1 with h2 | h2
        · exact Or.inl h2
        · exact Or.inr (by simpa using Or.inl (List.mem_singleton.mp h2))
      · exact Or.inr (List.mem_cons_of_mem a h1)

/-- Every element of `uniqList l` is an element of `l`. -/
theorem uniqList_subset {α : Type} [DecidableEq α] (l : List α) : uniqList l ⊆ l :=
  fun x hx => (uniqAppend_subset l [] x hx).resolve_left (by simp)

/-- The fold in the `Union` case of `getWeight` sums member weights. -/
theorem getWeightList_eq_sum (ms : List AST) :
    getWeightList ms = (ms.map getWeight).sum := by
  induction ms with
  | nil => simp [getWeightList]
  | cons a as ih => simp [getWeightList, ih]

/-- C1: the union constructor flattens candidates that are themselves
unions into their members, removes structural duplicates, and stores the
remaining members sorted descending by weight (Tuple = element count plus
1 if it has a rest, Struct = field count plus index-signature count,
Union = sum of member weights, Lazy = 10, TypeAlias = weight of the
wrapped type, everything else = 0); with zero members remaining it
returns a `never` keyword node, and with exactly one it returns that
member unchanged. -/
theorem union_construction_spec (candidates : List AST) (anns : Annotations) :
    (uniqList (flattenCandidates candidates) = [] →
      union candidates anns = .neverKeyword anns)
    ∧ (∀ a, uniqList (flattenCandidates candidates) = [a] → union candidates anns = a)
    ∧ (∀ u, uniqList (flattenCandidates candidates) = u → 2 ≤ u.length →
        union candidates anns = .union (sortByWeightDesc u) anns
        ∧ (sortByWeightDesc u).Nodup
        ∧ List.Sorted weightGE (sortByWeightDesc u)
        ∧ ∀ m ∈ sortByWeightDesc u, m ∈ flattenCandidates candidates)
    ∧ (∀ c ∈ candidates, ∀ ms manns, c = AST.union ms manns →
        flattenCandidate c = ms)
    ∧ (∀ es r ro a au,
        getWeight (.tuple es r ro a au) = es.length + (if r.isSome then 1 else 0))
    ∧ (∀ fs is a au, getWeight (.struct fs is a au) = fs.length + is.length)
    ∧ (∀ ms a, getWeight (.union ms a) = (ms.map getWeight).sum)
    ∧ (∀ t a, getWeight (.lazy t a) = 10)
    ∧ (∀ ps t a, getWeight (.typeAlias ps t a) = getWeight t)
    ∧ (∀ l a, getWeight (.literalType l a) = 0)
    ∧ (∀ s a, getWeight (.uniqueSymbol s a) = 0)
    ∧ (∀ a, getWeight (.undefinedKeyword a) = 0)
    ∧ (∀ a, getWeight (.voidKeyword a) = 0)
    ∧ (∀ a, getWeight (.neverKeyword a) = 0)
    ∧ (∀ a, getWeight (.unknownKeyword a) = 0)
    ∧ (∀ a, getWeight (.anyKeyword a) = 0)
    ∧ (∀ a, getWeight (.stringKeyword a) = 0)
    ∧ (∀ a, getWeight (.numberKeyword a) = 0)
    ∧ (∀ a, getWeight (.booleanKeyword a) = 0)
    ∧ (∀ a, getWeight (.bigIntKeyword a) = 0)
    ∧ (∀ a, getWeight (.symbolKeyword a) = 0)
    ∧ (∀ a, getWeight (.objectKeyword a) = 0)
    ∧ (∀ e a, getWeight (.enums e a) = 0)
    ∧ (∀ f rid m a, getWeight (.refinement f rid m a) = 0) := by
  refine ⟨?_, ?_, ?_, ?_, ?_, ?_, ?_, ?_, ?_, ?_, ?_, ?_, ?_, ?_, ?_, ?_, ?_,
    ?_, ?_, ?_, ?_, ?_, ?_, ?_⟩
  · intro h
    simp only [union, h]
  · intro a h
    simp only [union, h]
  · intro u hu hlen
    match u, hlen with
    | a :: b :: rest, _ =>
      refine ⟨by simp only [union, hu], ?_, List.sorted_insertionSort weightGE _, ?_⟩
      · exact (List.perm_insertionSort weightGE _).symm.nodup
          (hu ▸ uniqList_nodup (flattenCandidates candidates))
      · intro m hm
        exact uniqList_subset (flattenCandidates candidates)
          (hu ▸ (List.mem_insertionSort weightGE).mp hm)
  · intro c _ ms manns hc
    rw [hc]
    rfl
  · intro es r ro a au
    rfl
  · intro fs is a au
    rfl
  · intro ms a
    simp only [getWeight, getWeightList_eq_sum]
  all_goals intros; rfl

/-- Witness for C1 at concrete inputs: a duplicated candidate list
collapses to the single remaining member, and a two-member list is stored
sorted descending by weight. -/
theorem union_construction_spec_witness :
    union [stringC, stringC] [] = stringC
    ∧ union [struct [] [] [] false, stringC] [] =
        .union [struct [] [] [] false, stringC] [] :=
  ⟨(union_construction_spec [stringC, stringC] []).2.1 stringC (by decide),
    by
      have h := ((union_construction_spec [struct [] [] [] false, stringC] []).2.2.1
        [struct [] [] [] false, stringC] (by decide) (by decide)).1
      rw [h]
      rfl⟩

/-- C2: the struct constructor stores fields and index signatures sorted
ascending by the cardinality of each entry's value type (Never = 0;
Literal, Undefined, UniqueSymbol = 1; Boolean = 2; String, Number,
BigInt, Symbol = 3; Unknown, Any = 4; everything else = 5; TypeAlias
taking its wrapped type's cardinality), independent of the order the
caller supplied them in: from every input order the stored sequences are
cardinality-ascending permutations of the input. -/
theorem struct_construction_spec (fields : List Field)
    (indexSignatures : List IndexSignature) (anns : Annotations) (allowUnexpected : Bool) :
    List.Sorted fieldCardLE (fieldsOf (struct fields indexSignatures anns allowUnexpected))
    ∧ (fieldsOf (struct fields indexSignatures anns allowUnexpected)).Perm fields
    ∧ List.Sorted indexSignatureCardLE
        (indexSignaturesOf (struct fields indexSignatures anns allowUnexpected))
    ∧ (indexSignaturesOf (struct fields indexSignatures anns allowUnexpected)).Perm
        indexSignatures
    ∧ (∀ a, getCardinality (.neverKeyword a) = 0)
    ∧ (∀ l a, getCardinality (.literalType l a) = 1)
    ∧ (∀ a, getCardinality (.undefinedKeyword a) = 1)
    ∧ (∀ s a, getCardinality (.uniqueSymbol s a) = 1)
    ∧ (∀ a, getCardinality (.booleanKeyword a) = 2)
    ∧ (∀ a, getCardinality (.stringKeyword a) = 3)
    ∧ (∀ a, getCardinality (.numberKeyword a) = 3)
    ∧ (∀ a, getCardinality (.bigIntKeyword a) = 3)
    ∧ (∀ a, getCardinality (.symbolKeyword a) = 3)
    ∧ (∀ a, getCardinality (.unknownKeyword a) = 4)
    ∧ (∀ a, getCardinality (.anyKeyword a) = 4)
    ∧ (∀ ps t a, getCardinality (.typeAlias ps t a) = getCardinality t)
    ∧ (∀ a, getCardinality (.voidKeyword a) = 5)
    ∧ (∀ a, getCardinality (.objectKeyword a) = 5)
    ∧ (∀ es r ro a au, getCardinality (.tuple es r ro a au) = 5)
    ∧ (∀ fs is a au, getCardinality (.struct fs is a au) = 5)
    ∧ (∀ ms a, getCardinality (.union ms a) = 5)
    ∧ (∀ t a, getCardinality (.lazy t a) = 5)
    ∧ (∀ e a, getCardinality (.enums e a) = 5)
    ∧ (∀ f rid m a, getCardinality (.refinement f rid m a) = 5) := by
  refine ⟨List.sorted_insertionSort fieldCardLE fields,
    List.perm_insertionSort fieldCardLE fields,
    List.sorted_insertionSort indexSignatureCardLE indexSignatures,
    List.perm_insertionSort indexSignatureCardLE indexSignatures,
    ?_, ?_, ?_, ?_, ?_, ?_, ?_, ?_, ?_, ?_, ?_, ?_, ?_, ?_, ?_, ?_, ?_, ?_, ?_, ?_⟩
  all_goals intros; rfl

/-- `true` exactly on `Except.ok` results (a construction that did not
throw). -/
def exceptIsOk {ε α : Type} : Except ε α → Bool
  | .ok _ => true
  | .error _ => false

/-- C6: `appendRestElement` fails exactly when the tuple already has a
rest element; `appendElement` fails exactly when a required element would
follow an existing optional element or an optional element would follow
an existing rest element; in every other case both succeed. -/
theorem append_error_spec (t : TupleS) (r : AST) (e : Element) (anns : Annotations) :
    (t.rest.isSome = true →
      appendRestElement t r anns =
        .error "A rest element cannot follow another rest element. ts(1265)")
    ∧ (t.rest.isSome = false → exceptIsOk (appendRestElement t r anns) = true)
    ∧ (t.elements.any (fun el => el.isOptional) = true → e.isOptional = false →
      appendElement t e anns =
        .error "A required element cannot follow an optional element. ts(1257)")
    ∧ (t.rest.isSome = true → e.isOptional = true →
      appendElement t e anns =
        .error "An optional element cannot follow a rest element. ts(1266)")
    ∧ (¬(t.elements.any (fun el => el.isOptional) = true ∧ e.isOptional = false) →
      ¬(t.rest.isSome = true ∧ e.isOptional = true) →
      exceptIsOk (appendElement t e anns) = true) := by
  refine ⟨?_, ?_, ?_, ?_, ?_⟩
  · intro hsome
    cases hr : t.rest with
    | none => rw [hr] at hsome; simp at hsome
    | some p => simp [appendRestElement, hr]
  · intro hnone
    cases hr : t.rest with
    | none => simp [appendRestElement, hr, exceptIsOk]
    | some p => rw [hr] at hnone; simp at hnone
  · intro hopt hreq
    simp [appendElement, hopt, hreq]
  · intro hsome hopt
    cases hr : t.rest with
    | none => rw [hr] at hsome; simp at hsome
    | some p =>
      obtain ⟨rh, rt⟩ := p
      simp [appendElement, hopt, hr]
  · intro h1 h2
    have hc : (t.elements.any (fun el => el.isOptional) && !e.isOptional) = false := by
      cases ha : t.elements.any (fun el => el.isOptional) <;>
        cases ho : e.isOptional <;> simp_all
    rw [appendElement.eq_def, hc]
    simp only [Bool.false_eq_true, if_false]
    cases hr : t.rest with
    | none => rfl
    | some p =>
      obtain ⟨rh, rt⟩ := p
      have ho : e.isOptional = false := by
        cases ho : e.isOptional
        · rfl
        · exact absurd ⟨by rw [hr]; rfl, ho⟩ h2
      rw [ho]
      simp only [Bool.false_eq_true, if_false]
      rfl

/-- Witness for C6 at concrete tuples: appending a rest to a tuple that
has one fails with the documented message, and succeeds on a tuple
without one; appending an optional element after a rest fails. -/
theorem append_error_spec_witness :
    appendRestElement ⟨[], some (stringC, []), false, [], true⟩ numberC [] =
      .error "A rest element cannot follow another rest element. ts(1265)"
    ∧ exceptIsOk (appendRestElement ⟨[], none, false, [], true⟩ numberC []) = true
    ∧ appendElement ⟨[], some (stringC, []), false, [], false⟩ (.mk numberC true []) [] =
      .error "An optional element cannot follow a rest element. ts(1266)"
    ∧ exceptIsOk
        (appendElement ⟨[], none, false, [], false⟩ (.mk numberC false []) []) = true :=
  ⟨(append_error_spec ⟨[], some (stringC, []), false, [], true⟩ numberC
      (.mk numberC true []) []).1 (by decide),
    (append_error_spec ⟨[], none, false, [], true⟩ numberC (.mk numberC true []) []).2.1
      (by decide),
    (append_error_spec ⟨[], some (stringC, []), false, [], false⟩ numberC
      (.mk numberC true []) []).2.2.2.1 (by decide) (by decide),
    (append_error_spec ⟨[], none, false, [], false⟩ numberC (.mk numberC false []) []).2.2.2.2
      (by decide) (by decide)⟩

/-- C10: when they succeed, `appendRestElement` and `appendElement`
preserve the tuple's elements (`appendElement` appending the new one off
the rest) and its `isReadonly` flag, while the result's `allowUnexpected`
is always `false` and its annotations are exactly the `annotations`
argument of the call; the input tuple's own `allowUnexpected` flag and
annotation map are discarded. -/
theorem append_frame_spec (t : TupleS) (r : AST) (e : Element) (anns : Annotations) :
    (∀ t2, appendRestElement t r anns = .ok t2 →
      t2.elements = t.elements ∧ t2.rest = some (r, []) ∧ t2.isReadonly = t.isReadonly
      ∧ t2.allowUnexpected = false ∧ t2.annotations = anns)
    ∧ (∀ t2, appendElement t e anns = .ok t2 →
      (t2.elements = t.elements ∨ t2.elements = t.elements ++ [e])
      ∧ t2.isReadonly = t.isReadonly ∧ t2.allowUnexpected = false
      ∧ t2.annotations = anns) := by
  constructor
  · intro t2 h
    cases hr : t.rest with
    | some p => simp [appendRestElement, hr] at h
    | none =>
      simp only [appendRestElement, hr] at h
      cases h
      exact ⟨rfl, rfl, rfl, rfl, rfl⟩
  · intro t2 h
    by_cases hc : (t.elements.any (fun el => el.isOptional) && !e.isOptional) = true
    · simp [appendElement, hc] at h
    · rw [appendElement.eq_def] at h
      rw [Bool.not_eq_true] at hc
      rw [hc] at h
      simp only [Bool.false_eq_true, if_false] at h
      cases hr : t.rest with
      | none =>
        rw [hr] at h
        cases h
        exact ⟨Or.inr rfl, rfl, rfl, rfl⟩
      | some p =>
        obtain ⟨rh, rt⟩ := p
        rw [hr] at h
        cases ho : e.isOptional
        · rw [ho] at h
          simp only [Bool.false_eq_true, if_false] at h
          cases h
          exact ⟨Or.inl rfl, rfl, rfl, rfl⟩
        · rw [ho] at h
          simp at h

/-- Witness for C10: a successful `appendElement` on a concrete tuple
with a stale annotation map and `allowUnexpected = true` resets both. -/
theorem append_frame_spec_witness :
    (TupleS.mk [Element.mk numberC false []] none true [] false).isReadonly = true
    ∧ (TupleS.mk [Element.mk numberC false []] none true [] false).allowUnexpected = false
    ∧ (TupleS.mk [Element.mk numberC false []] none true [] false).annotations = [] :=
  have h := (append_frame_spec ⟨[], none, true, [("k", 1)], true⟩ numberC
    (.mk numberC false []) []).2 ⟨[.mk numberC false []], none, true, [], false⟩ rfl
  ⟨h.2.1, h.2.2.1, h.2.2.2⟩

/-- `getPropertyKeyAST`: a symbol key becomes a `UniqueSymbol` node, a
string or number key a `LiteralType` node. -/
def getPropertyKeyAST : PropertyKey → AST
  | .psym s => .uniqueSymbol s []
  | .pstr s => .literalType (.lstr s) []
  | .pnum n => .literalType (.lnum n) []

/-- JavaScript `typeof` of a `PropertyKey`. -/
def typeofKey : PropertyKey → ISKey
  | .pstr _ => .str
  | .pnum _ => .num
  | .psym _ => .sym

/-- The `Record<IndexSignature["key"], boolean>` computed by
`getIndexSignaturesKeys`. -/
structure KeysFlags where
  str : Bool
  num : Bool
  sym : Bool
deriving DecidableEq

/-- One loop iteration of `getIndexSignaturesKeys`: a symbol signature
covers symbol keys, a number signature number keys, and a string
signature both string and number keys. -/
def addIndexSignatureKey (out : KeysFlags) (i : IndexSignature) : KeysFlags :=
  match i.key with
  | .sym => { out with sym := true }
  | .num => { out with num := true }
  | .str => { out with str := true, num := true }

/-- `getIndexSignaturesKeys` from `src/src/AST.ts`. -/
def getIndexSignaturesKeys (l : List IndexSignature) : KeysFlags :=
  l.foldl addIndexSignatureKey ⟨false, false, false⟩

/-- Field access `keys[typeof f.key]` on the flags record. -/
def KeysFlags.lookup (ks : KeysFlags) : ISKey → Bool
  | .str => ks.str
  | .num => ks.num
  | .sym => ks.sym

/-- `getIndexSignatureAST`: the key-domain AST of an index signature. -/
def getIndexSignatureAST (i : IndexSignature) : AST :=
  match i.key with
  | .sym => symbolC
  | .num => numberC
  | .str => union [stringC, numberC] []

mutual

/-- `keyof` from `src/src/AST.ts`; the `throw` in the default branch is
modelled with `Except.error` (the backquotes of the original message are
omitted). A `Union` node with an empty member list (impossible for
smart-constructed nodes) would crash in JavaScript and is modelled as the
same error. -/
def keyof : AST → Except String (List AST)
  | .typeAlias _ t _ => keyof t
  | .neverKeyword _ => .ok [stringC, numberC, symbolC]
  | .anyKeyword _ => .ok [stringC, numberC, symbolC]
  | .unknownKeyword _ => .ok [neverC]
  | .numberKeyword _ => .ok [neverC]
  | .booleanKeyword _ => .ok [neverC]
  | .bigIntKeyword _ => .ok [neverC]
  | .symbolKeyword _ => .ok [neverC]
  | .undefinedKeyword _ => .ok [neverC]
  | .uniqueSymbol _ _ => .ok [neverC]
  | .voidKeyword _ => .ok [neverC]
  | .objectKeyword _ => .ok [neverC]
  | .enums _ _ => .ok [neverC]
  | .struct fs is _ _ =>
      .ok (((fs.filter
          (fun f => !((getIndexSignaturesKeys is).lookup (typeofKey f.key)))).map
        (fun f => getPropertyKeyAST f.key)) ++ is.map getIndexSignatureAST)
  | .union ms _ =>
      match ms with
      | [] => .error "cannot keyof on this AST"
      | m :: rest =>
          match keyof m with
          | .error e => .error e
          | .ok out => keyofUnionTail out rest
  | .lazy t _ => keyof t
  | .refinement f _ _ _ => keyof f
  | .stringKeyword _ => .error "cannot keyof on this AST"
  | .literalType _ _ => .error "cannot keyof on this AST"
  | .tuple _ _ _ _ _ => .error "cannot keyof on this AST"
termination_by structural a => a

/-- The fold in the `Union` case of `keyof`: repeatedly intersect
(`ReadonlyArray.intersection`, i.e. filter by membership) with each
remaining member's key set. -/
def keyofUnionTail : List AST → List AST → Except String (List AST)
  | out, [] => .ok out
  | out, m :: ms =>
      match keyof m with
      | .error e => .error e
      | .ok k => keyofUnionTail (out.filter (fun a => decide (a ∈ k))) ms
termination_by structural _ l => l

end

/-- The spec's notion of a field key being "already covered by an
index-signature domain": a symbol key is covered by a symbol signature, a
number key by a number or string signature, a string key by a string
signature. -/
def coveredByIndexSignatures (is : List IndexSignature) (k : PropertyKey) : Bool :=
  match typeofKey k with
  | .sym => is.any (fun i => i.key == ISKey.sym)
  | .num => is.any (fun i => i.key == ISKey.num || i.key == ISKey.str)
  | .str => is.any (fun i => i.key == ISKey.str)

theorem getIndexSignaturesKeys_go (l : List IndexSignature) : ∀ acc : KeysFlags,
    (l.foldl addIndexSignatureKey acc).str = (acc.str || l.any (fun i => i.key == ISKey.str))
    ∧ (l.foldl addIndexSignatureKey acc).num =
        (acc.num || l.any (fun i => i.key == ISKey.num || i.key == ISKey.str))
    ∧ (l.foldl addIndexSignatureKey acc).sym =
        (acc.sym || l.any (fun i => i.key == ISKey.sym)) := by
  induction l with
  | nil => intro acc; simp
  | cons i is ih =>
    intro acc
    cases hk : i.key with
    | str =>
      have h := ih { acc with str := true, num := true }
      simp [List.foldl_cons, addIndexSignatureKey, hk, h.1, h.2.1, h.2.2,
        show (ISKey.str == ISKey.sym) = false from rfl,
        show (ISKey.str == ISKey.num) = false from rfl,
        show (ISKey.str == ISKey.str) = true from rfl,
        show (ISKey.num == ISKey.sym) = false from rfl,
        show (ISKey.num == ISKey.num) = true from rfl,
        show (ISKey.num == ISKey.str) = false from rfl,
        show (ISKey.sym == ISKey.sym) = true from rfl,
        show (ISKey.sym == ISKey.num) = false from rfl,
        show (ISKey.sym == ISKey.str) = false from rfl]
    | num =>
      have h := ih { acc with num := true }
      simp [List.foldl_cons, addIndexSignatureKey, hk, h.1, h.2.1, h.2.2,
        show (ISKey.str == ISKey.sym) = false from rfl,
        show (ISKey.str == ISKey.num) = false from rfl,
        show (ISKey.str == ISKey.str) = true from rfl,
        show (ISKey.num == ISKey.sym) = false from rfl,
        show (ISKey.num == ISKey.num) = true from rfl,
        show (ISKey.num == ISKey.str) = false from rfl,
        show (ISKey.sym == ISKey.sym) = true from rfl,
        show (ISKey.sym == ISKey.num) = false from rfl,
        show (ISKey.sym == ISKey.str) = false from rfl]
    | sym =>
      have h := ih { acc with sym := true }
      simp [List.foldl_cons, addIndexSignatureKey, hk, h.1, h.2.1, h.2.2,
        show (ISKey.str == ISKey.sym) = false from rfl,
        show (ISKey.str == ISKey.num) = false from rfl,
        show (ISKey.str == ISKey.str) = true from rfl,
        show (ISKey.num == ISKey.sym) = false from rfl,
        show (ISKey.num == ISKey.num) = true from rfl,
        show (ISKey.num == ISKey.str) = false from rfl,
        show (ISKey.sym == ISKey.sym) = true from rfl,
        show (ISKey.sym == ISKey.num) = false from rfl,
        show (ISKey.sym == ISKey.str) = false from rfl]

/-- The loop of `getIndexSignaturesKeys` computes exactly the spec's
coverage relation. -/
theorem coveredByIndexSignatures_eq (is : List IndexSignature) (k : PropertyKey) :
    coveredByIndexSignatures is k = (getIndexSignaturesKeys is).lookup (typeofKey k) := by
  have h := getIndexSignaturesKeys_go is ⟨false, false, false⟩
  cases hk : typeofKey k <;>
    simp [coveredByIndexSignatures, hk, KeysFlags.lookup, getIndexSignaturesKeys,
      h.1, h.2.1, h.2.2]

/-- The intersection fold of the `Union` case of `keyof`: when every
member's key set is defined, the result keeps exactly the elements of the
accumulator that lie in every member's key set. -/
theorem keyofUnionTail_spec (ms : List AST) : ∀ out : List AST,
    (∀ mem ∈ ms, exceptIsOk (keyof mem) = true) →
    ∃ ks, keyofUnionTail out ms = .ok ks
      ∧ ∀ x, (x ∈ ks ↔ x ∈ out ∧ ∀ mem ∈ ms, ∀ k, keyof mem = .ok k → x ∈ k) := by
  induction ms with
  | nil => intro out _; exact ⟨out, rfl, by simp⟩
  | cons m ms ih =>
    intro out h
    have hm := h m (List.mem_cons_self m ms)
    cases hk : keyof m with
    | error e => rw [hk] at hm; simp [exceptIsOk] at hm
    | ok k =>
      obtain ⟨ks, heq, hiff⟩ := ih (out.filter (fun a => decide (a ∈ k)))
        (fun mem hmem => h mem (List.mem_cons_of_mem m hmem))
      refine ⟨ks, ?_, ?_⟩
      · show (match keyof m with
          | Except.error e => Except.error e
          | Except.ok k => keyofUnionTail (out.filter (fun a => decide (a ∈ k))) ms) =
            Except.ok ks
        rw [hk]
        exact heq
      · intro x
        rw [hiff x]
        constructor
        · rintro ⟨hxf, hrest⟩
          have hx := List.mem_filter.mp hxf
          refine ⟨hx.1, ?_⟩
          intro mem hmem k2 hk2
          rcases List.mem_cons.mp hmem with rfl | hmem2
          · rw [hk] at hk2
            cases hk2
            exact of_decide_eq_true hx.2
          · exact hrest mem hmem2 k2 hk2
        · rintro ⟨hxout, hall⟩
          refine ⟨List.mem_filter.mpr
            ⟨hxout, decide_eq_true (hall m (List.mem_cons_self m ms) k hk)⟩, ?_⟩
          intro mem hmem k2 hk2
          exact hall mem (List.mem_cons_of_mem m hmem) k2 hk2

/-- C4: `keyof` of a Struct returns the field keys as
literal/unique-symbol ASTs (excluding keys whose key type is covered by
an index-signature domain) together with the index-signature key-domain
ASTs; `keyof` of a Union is the intersection of the members' key sets;
`keyof` of `never` and `any` is the fixed set `{string, number, symbol}`;
and `keyof` delegates through TypeAlias, Lazy, and Refinement. -/
theorem keyof_spec :
    (∀ ps t a, keyof (.typeAlias ps t a) = keyof t)
    ∧ (∀ t a, keyof (.lazy t a) = keyof t)
    ∧ (∀ f rid m a, keyof (.refinement f rid m a) = keyof f)
    ∧ (∀ a, keyof (.neverKeyword a) = .ok [stringC, numberC, symbolC])
    ∧ (∀ a, keyof (.anyKeyword a) = .ok [stringC, numberC, symbolC])
    ∧ (∀ fs is a au, keyof (.struct fs is a au) =
        .ok (((fs.filter (fun f => !(coveredByIndexSignatures is f.key))).map
            (fun f => getPropertyKeyAST f.key)) ++ is.map getIndexSignatureAST))
    ∧ (∀ m ms a, (∀ mem ∈ m :: ms, exceptIsOk (keyof mem) = true) →
        ∃ ks, keyof (.union (m :: ms) a) = .ok ks
          ∧ ∀ x, (x ∈ ks ↔ ∀ mem ∈ m :: ms, ∀ k, keyof mem = .ok k → x ∈ k)) := by
  refine ⟨fun ps t a => rfl, fun t a => rfl, fun f rid m a => rfl, fun a => rfl,
    fun a => rfl, ?_, ?_⟩
  · intro fs is a au
    simp only [coveredByIndexSignatures_eq]
    rfl
  · intro m ms a h
    have hm := h m (List.mem_cons_self m ms)
    cases hk : keyof m with
    | error e => rw [hk] at hm; simp [exceptIsOk] at hm
    | ok k =>
      obtain ⟨ks, heq, hiff⟩ := keyofUnionTail_spec ms k
        (fun mem hmem => h mem (List.mem_cons_of_mem m hmem))
      refine ⟨ks, ?_, ?_⟩
      · show (match keyof m with
          | Except.error e => Except.error e
          | Except.ok out => keyofUnionTail out ms) = Except.ok ks
        rw [hk]
        exact heq
      · intro x
        rw [hiff x]
        constructor
        · rintro ⟨hxk, hrest⟩
          intro mem hmem k2 hk2
          rcases List.mem_cons.mp hmem with rfl | hmem2
          · rw [hk] at hk2
            cases hk2
            exact hxk
          · exact hrest mem hmem2 k2 hk2
        · intro hall
          exact ⟨hall m (List.mem_cons_self m ms) k hk,
            fun mem hmem k2 hk2 => hall mem (List.mem_cons_of_mem m hmem) k2 hk2⟩

/-- Witness for C4: the key set of the union of `never` and `any` is
defined (both members carry the full `{string, number, symbol}` set). -/
theorem keyof_spec_witness :
    exceptIsOk (keyof (.union [.neverKeyword [], .anyKeyword []] [])) = true := by
  obtain ⟨ks, heq, _⟩ := keyof_spec.2.2.2.2.2.2 (.neverKeyword []) [.anyKeyword []] []
    (by decide)
  rw [heq]
  rfl

/-- C9: `keyof` reports "cannot keyof on this AST" exactly on
StringKeyword, LiteralType, and Tuple nodes (the default branch), while
the other keyword-like kinds (number, boolean, bigint, symbol, undefined,
void, object, unknown, unique symbol, enums) each yield the singleton key
set `[never]`. -/
theorem keyof_default_branch_spec :
    (∀ a, keyof (.stringKeyword a) = .error "cannot keyof on this AST")
    ∧ (∀ l a, keyof (.literalType l a) = .error "cannot keyof on this AST")
    ∧ (∀ es r ro a au, keyof (.tuple es r ro a au) = .error "cannot keyof on this AST")
    ∧ (∀ a, keyof (.numberKeyword a) = .ok [neverC])
    ∧ (∀ a, keyof (.booleanKeyword a) = .ok [neverC])
    ∧ (∀ a, keyof (.bigIntKeyword a) = .ok [neverC])
    ∧ (∀ a, keyof (.symbolKeyword a) = .ok [neverC])
    ∧ (∀ a, keyof (.undefinedKeyword a) = .ok [neverC])
    ∧ (∀ a, keyof (.voidKeyword a) = .ok [neverC])
    ∧ (∀ a, keyof (.objectKeyword a) = .ok [neverC])
    ∧ (∀ a, keyof (.unknownKeyword a) = .ok [neverC])
    ∧ (∀ s a, keyof (.uniqueSymbol s a) = .ok [neverC])
    ∧ (∀ e a, keyof (.enums e a) = .ok [neverC]) := by
  refine ⟨?_, ?_, ?_, ?_, ?_, ?_, ?_, ?_, ?_, ?_, ?_, ?_, ?_⟩
  all_goals intros; rfl

mutual

/-- The inner `go` of `record`: the mutable `fields`/`indexSignatures`
arrays are threaded as an accumulator pair, and the two `throw`s are
modelled with `Except.error` (messages without quotes or backquotes; the
second message drops the interpolated tag). -/
def recordGo (value : AST) (isReadonly : Bool) :
    AST → List Field × List IndexSignature →
      Except String (List Field × List IndexSignature)
  | .neverKeyword _, acc => .ok acc
  | .stringKeyword _, acc => .ok (acc.1, acc.2 ++ [.mk .str value isReadonly []])
  | .numberKeyword _, acc => .ok (acc.1, acc.2 ++ [.mk .num value isReadonly []])
  | .symbolKeyword _, acc => .ok (acc.1, acc.2 ++ [.mk .sym value isReadonly []])
  | .literalType (.lstr s) _, acc =>
      .ok (acc.1 ++ [.mk (.pstr s) value false isReadonly []], acc.2)
  | .literalType (.lnum n) _, acc =>
      .ok (acc.1 ++ [.mk (.pnum n) value false isReadonly []], acc.2)
  | .literalType _ _, acc => .ok acc
  | .uniqueSymbol s _, acc =>
      .ok (acc.1 ++ [.mk (.psym s) value false isReadonly []], acc.2)
  | .union ms _, acc => recordGoList value isReadonly ms acc
  | .refinement _ _ _ _, _ => .error "cannot handle refinements in record"
  | _, _ =>
      .error "Type does not satisfy the constraint string | number | symbol. ts(2344)"
termination_by structural k _ => k

/-- `key.members.forEach(go)`: sequential case-split over union members,
aborting at the first thrown error. -/
def recordGoList (value : AST) (isReadonly : Bool) :
    List AST → List Field × List IndexSignature →
      Except String (List Field × List IndexSignature)
  | [], acc => .ok acc
  | k :: ks, acc =>
      match recordGo value isReadonly k acc with
      | .error e => .error e
      | .ok acc2 => recordGoList value isReadonly ks acc2
termination_by structural l _ => l

end

/-- `record(key, value, isReadonly)` from `src/src/AST.ts`. -/
def record (key : AST) (value : AST) (isReadonly : Bool) : Except String AST :=
  match recordGo value isReadonly key ([], []) with
  | .error e => .error e
  | .ok (fs, is) => .ok (struct fs is [] false)

/-- C5 counterexample: `record` on a boolean-literal key (a node that is
not key-like) does not fail — the key is silently skipped and an empty
struct is produced. -/
theorem record_nonkey_literal_no_error :
    record (.literalType (.lbool true) []) stringC false = .ok (struct [] [] [] false)
    ∧ exceptIsOk (record (.literalType (.lbool true) []) stringC false) = true :=
  ⟨rfl, rfl⟩

/-- C5 (amended): every string/number literal key becomes a required
field, every unique-symbol key becomes a required field, every
string/number/symbol primitive key becomes an index signature, a Union
key is case-split member-wise, a `never` key contributes nothing, a
literal key holding a boolean, null, or bigint is silently skipped, and
the construction fails with an explicit error on a Refinement and on
every other node kind. -/
theorem record_spec (value : AST) (ro : Bool) (acc : List Field × List IndexSignature) :
    (∀ a, recordGo value ro (.stringKeyword a) acc =
      .ok (acc.1, acc.2 ++ [.mk .str value ro []]))
    ∧ (∀ a, recordGo value ro (.numberKeyword a) acc =
      .ok (acc.1, acc.2 ++ [.mk .num value ro []]))
    ∧ (∀ a, recordGo value ro (.symbolKeyword a) acc =
      .ok (acc.1, acc.2 ++ [.mk .sym value ro []]))
    ∧ (∀ s a, recordGo value ro (.literalType (.lstr s) a) acc =
      .ok (acc.1 ++ [.mk (.pstr s) value false ro []], acc.2))
    ∧ (∀ n a, recordGo value ro (.literalType (.lnum n) a) acc =
      .ok (acc.1 ++ [.mk (.pnum n) value false ro []], acc.2))
    ∧ (∀ s a, recordGo value ro (.uniqueSymbol s a) acc =
      .ok (acc.1 ++ [.mk (.psym s) value false ro []], acc.2))
    ∧ (∀ a, recordGo value ro (.neverKeyword a) acc = .ok acc)
    ∧ (∀ b a, recordGo value ro (.literalType (.lbool b) a) acc = .ok acc)
    ∧ (∀ a, recordGo value ro (.literalType .lnull a) acc = .ok acc)
    ∧ (∀ n a, recordGo value ro (.literalType (.lbig n) a) acc = .ok acc)
    ∧ (∀ ms a, recordGo value ro (.union ms a) acc = recordGoList value ro ms acc)
    ∧ recordGoList value ro [] acc = .ok acc
    ∧ (∀ m ms acc2, recordGo value ro m acc = .ok acc2 →
      recordGoList value ro (m :: ms) acc = recordGoList value ro ms acc2)
    ∧ (∀ m ms e, recordGo value ro m acc = .error e →
      recordGoList value ro (m :: ms) acc = .error e)
    ∧ (∀ f rid m a, recordGo value ro (.refinement f rid m a) acc =
      .error "cannot handle refinements in record")
    ∧ (∀ ps t a, recordGo value ro (.typeAlias ps t a) acc =
      .error "Type does not satisfy the constraint string | number | symbol. ts(2344)")
    ∧ (∀ es r ro2 a au, recordGo value ro (.tuple es r ro2 a au) acc =
      .error "Type does not satisfy the constraint string | number | symbol. ts(2344)")
    ∧ (∀ fs is a au, recordGo value ro (.struct fs is a au) acc =
      .error "Type does not satisfy the constraint string | number | symbol. ts(2344)")
    ∧ (∀ t a, recordGo value ro (.lazy t a) acc =
      .error "Type does not satisfy the constraint string | number | symbol. ts(2344)")
    ∧ (∀ e a, recordGo value ro (.enums e a) acc =
      .error "Type does not satisfy the constraint string | number | symbol. ts(2344)")
    ∧ (∀ a, recordGo value ro (.undefinedKeyword a) acc =
      .error "Type does not satisfy the constraint string | number | symbol. ts(2344)")
    ∧ (∀ a, recordGo value ro (.voidKeyword a) acc =
      .error "Type does not satisfy the constraint string | number | symbol. ts(2344)")
    ∧ (∀ a, recordGo value ro (.unknownKeyword a) acc =
      .error "Type does not satisfy the constraint string | number | symbol. ts(2344)")
    ∧ (∀ a, recordGo value ro (.anyKeyword a) acc =
      .error "Type does not satisfy the constraint string | number | symbol. ts(2344)")
    ∧ (∀ a, recordGo value ro (.booleanKeyword a) acc =
      .error "Type does not satisfy the constraint string | number | symbol. ts(2344)")
    ∧ (∀ a, recordGo value ro (.bigIntKeyword a) acc =
      .error "Type does not satisfy the constraint string | number | symbol. ts(2344)")
    ∧ (∀ a, recordGo value ro (.objectKeyword a) acc =
      .error "Type does not satisfy the constraint string | number | symbol. ts(2344)")
    ∧ (∀ k fs is, recordGo value ro k ([], []) = .ok (fs, is) →
      record k value ro = .ok (struct fs is [] false))
    ∧ (∀ k e, recordGo value ro k ([], []) = .error e →
      record k value ro = .error e) := by
  refine ⟨fun a => rfl, fun a => rfl, fun a => rfl, fun s a => rfl, fun n a => rfl,
    fun s a => rfl, fun a => rfl, fun b a => rfl, fun a => rfl, fun n a => rfl,
    fun ms a => rfl, rfl, ?_, ?_, fun f rid m a => rfl, fun ps t a => rfl,
    fun es r ro2 a au => rfl, fun fs is a au => rfl, fun t a => rfl, fun e a => rfl,
    fun a => rfl, fun a => rfl, fun a => rfl, fun a => rfl, fun a => rfl, fun a => rfl,
    fun a => rfl, ?_, ?_⟩
  · intro m ms acc2 h
    show (match recordGo value ro m acc with
      | Except.error e => Except.error e
      | Except.ok acc2 => recordGoList value ro ms acc2) =
        recordGoList value ro ms acc2
    rw [h]
  · intro m ms e h
    show (match recordGo value ro m acc with
      | Except.error e => Except.error e
      | Except.ok acc2 => recordGoList value ro ms acc2) = Except.error e
    rw [h]
  · intro k fs is h
    show (match recordGo value ro k ([], []) with
      | Except.error e => Except.error e
      | Except.ok (fs, is) => Except.ok (struct fs is [] false)) =
        Except.ok (struct fs is [] false)
    rw [h]
  · intro k e h
    show (match recordGo value ro k ([], []) with
      | Except.error e => Except.error e
      | Except.ok (fs, is) => Except.ok (struct fs is [] false)) = Except.error e
    rw [h]

/-- Witness for C5 (amended): a union key of a string literal and the
number keyword produces one field and one index signature; a refinement
key fails. -/
theorem record_spec_witness :
    record (.union [.literalType (.lstr "a") [], .numberKeyword []] []) stringC false =
      .ok (struct [.mk (.pstr "a") stringC false false []]
        [.mk .num stringC false []] [] false)
    ∧ record (.refinement stringC 0 0 []) stringC false =
      .error "cannot handle refinements in record" :=
  ⟨(record_spec stringC false ([], [])).2.2.2.2.2.2.2.2.2.2.2.2.2.2.2.2.2.2.2.2.2.2.2.2.2.2.2.1
      (.union [.literalType (.lstr "a") [], .numberKeyword []] [])
      [.mk (.pstr "a") stringC false false []] [.mk .num stringC false []] rfl,
    (record_spec stringC false ([], [])).2.2.2.2.2.2.2.2.2.2.2.2.2.2.2.2.2.2.2.2.2.2.2.2.2.2.2.2
      (.refinement stringC 0 0 []) "cannot handle refinements in record" rfl⟩

/-- The stored element list of a `Tuple` node (empty for any other node). -/
def elementsOf : AST → List Element
  | .tuple es _ _ _ _ => es
  | _ => []

/-- The stored rest of a `Tuple` node (`none` for any other node). -/
def restOf : AST → Option (AST × List AST)
  | .tuple _ r _ _ _ => r
  | _ => none

mutual

/-- `partial` from `src/src/AST.ts` (named `partialAST` here because
`partial` is reserved). Struct fields and tuple elements become optional
(values untouched), a tuple rest becomes the single union of its types
and `undefined`, Union distributes over members, Lazy defers, TypeAlias
and Refinement delegate, everything else is returned unchanged. -/
def partialAST : AST → AST
  | .typeAlias _ t _ => partialAST t
  | .tuple es r ro _ _ =>
      .tuple (es.map (fun e => .mk e.type_ true []))
        (r.map (fun p => (union (p.1 :: (p.2 ++ [.undefinedKeyword []])) [],
          ([] : List AST))))
        ro [] false
  | .struct fs is _ _ =>
      struct (fs.map (fun f => .mk f.key f.value true f.isReadonly f.annotations)) is
        [] false
  | .union ms _ => union (partialASTList ms) []
  | .lazy t _ => .lazy (partialAST t) []
  | .refinement f _ _ _ => partialAST f
  | a => a
termination_by structural a => a

/-- `members.map(partial)` in the `Union` case of `partial`. -/
def partialASTList : List AST → List AST
  | [] => []
  | m :: ms => partialAST m :: partialASTList ms
termination_by structural l => l

end

theorem partialASTList_eq_map (ms : List AST) : partialASTList ms = ms.map partialAST := by
  induction ms with
  | nil => rfl
  | cons m ms ih => simp [partialASTList, ih]

theorem partialAST_tuple (es : List Element) (r : Option (AST × List AST)) (ro : Bool)
    (a : Annotations) (au : Bool) :
    partialAST (.tuple es r ro a au) =
      .tuple (es.map (fun e => Element.mk e.type_ true []))
        (r.map (fun p => (union (p.1 :: (p.2 ++ [.undefinedKeyword []])) [],
          ([] : List AST))))
        ro [] false := rfl

/-- C7: `partial` makes every Struct field and every Tuple element
optional (preserving keys, value types, and order up to the struct
re-sort), replaces a Tuple's rest-type sequence with the single union of
those types and `undefined`, distributes over Union members, defers
through Lazy, delegates through TypeAlias and Refinement, and leaves
every other node kind unchanged. -/
theorem partial_spec :
    (∀ fs is a au,
      (fieldsOf (partialAST (.struct fs is a au))).all (fun f => f.isOptional) = true
      ∧ (fieldsOf (partialAST (.struct fs is a au))).Perm
          (fs.map (fun f => Field.mk f.key f.value true f.isReadonly f.annotations))
      ∧ (indexSignaturesOf (partialAST (.struct fs is a au))).Perm is)
    ∧ (∀ es r ro a au,
      (elementsOf (partialAST (.tuple es r ro a au))).all (fun e => e.isOptional) = true
      ∧ (elementsOf (partialAST (.tuple es r ro a au))).map Element.type_ =
          es.map Element.type_
      ∧ restOf (partialAST (.tuple es r ro a au)) =
          r.map (fun p => (union (p.1 :: (p.2 ++ [.undefinedKeyword []])) [],
            ([] : List AST))))
    ∧ (∀ ms a, partialAST (.union ms a) = union (ms.map partialAST) [])
    ∧ (∀ t a, partialAST (.lazy t a) = .lazy (partialAST t) [])
    ∧ (∀ ps t a, partialAST (.typeAlias ps t a) = partialAST t)
    ∧ (∀ f rid m a, partialAST (.refinement f rid m a) = partialAST f)
    ∧ (∀ l a, partialAST (.literalType l a) = .literalType l a)
    ∧ (∀ s a, partialAST (.uniqueSymbol s a) = .uniqueSymbol s a)
    ∧ (∀ a, partialAST (.undefinedKeyword a) = .undefinedKeyword a)
    ∧ (∀ a, partialAST (.voidKeyword a) = .voidKeyword a)
    ∧ (∀ a, partialAST (.neverKeyword a) = .neverKeyword a)
    ∧ (∀ a, partialAST (.unknownKeyword a) = .unknownKeyword a)
    ∧ (∀ a, partialAST (.anyKeyword a) = .anyKeyword a)
    ∧ (∀ a, partialAST (.stringKeyword a) = .stringKeyword a)
    ∧ (∀ a, partialAST (.numberKeyword a) = .numberKeyword a)
    ∧ (∀ a, partialAST (.booleanKeyword a) = .booleanKeyword a)
    ∧ (∀ a, partialAST (.bigIntKeyword a) = .bigIntKeyword a)
    ∧ (∀ a, partialAST (.symbolKeyword a) = .symbolKeyword a)
    ∧ (∀ a, partialAST (.objectKeyword a) = .objectKeyword a)
    ∧ (∀ e a, partialAST (.enums e a) = .enums e a) := by
  refine ⟨?_, ?_, ?_, fun t a => rfl, fun ps t a => rfl, fun f rid m a => rfl,
    fun l a => rfl, fun s a => rfl, fun a => rfl, fun a => rfl, fun a => rfl,
    fun a => rfl, fun a => rfl, fun a => rfl, fun a => rfl, fun a => rfl,
    fun a => rfl, fun a => rfl, fun a => rfl, fun e a => rfl⟩
  · intro fs is a au
    refine ⟨?_, ?_, ?_⟩
    · rw [List.all_eq_true]
      intro f hf
      have hmem : f ∈ (fs.map
          (fun f => Field.mk f.key f.value true f.isReadonly f.annotations)) := by
        have := (List.mem_insertionSort fieldCardLE).mp hf
        exact this
      obtain ⟨f0, _, rfl⟩ := List.mem_map.mp hmem
      rfl
    · exact List.perm_insertionSort fieldCardLE _
    · exact List.perm_insertionSort indexSignatureCardLE is
  · intro es r ro a au
    rw [partialAST_tuple]
    refine ⟨?_, ?_, rfl⟩
    · rw [List.all_eq_true]
      intro e he
      obtain ⟨e0, _, rfl⟩ := List.mem_map.mp he
      rfl
    · show (es.map (fun e => Element.mk e.type_ true [])).map Element.type_ =
        es.map Element.type_
      rw [List.map_map]
      rfl
  · intro ms a
    show union (partialASTList ms) [] = union (ms.map partialAST) []
    rw [partialASTList_eq_map]

/-- A JavaScript runtime value, as far as the decode contract needs:
scalars, generic keyed objects, and ordered sequences. -/
inductive Value where
  | vnull
  | vundefined
  | vstr (s : String)
  | vnum (n : Int)
  | vbool (b : Bool)
  | vbig (n : Int)
  | vsym (id : Nat)
  | vobj (fields : List (PropertyKey × Value))
  | varr (items : List Value)

/-- `ParseErrors` from the error-model source file: the non-empty inner
sequences of `Index`, `Key`, and `UnionMember` are modelled as an
explicit head plus tail. -/
inductive ParseErrors where
  | type_ (expected : AST) (actual : Value) (message : Option String)
  | forbidden
  | index (idx : Nat) (errorsHead : ParseErrors) (errorsTail : List ParseErrors)
  | key (k : PropertyKey) (errorsHead : ParseErrors) (errorsTail : List ParseErrors)
  | missing
  | unexpected (actual : Value)
  | unionMember (errorsHead : ParseErrors) (errorsTail : List ParseErrors)

/-- `ParseError`: a non-empty ordered sequence of `ParseErrors` entries,
modelled as head plus tail. -/
structure ParseError where
  errorsHead : ParseErrors
  errorsTail : List ParseErrors

/-- The entry sequence of a `ParseError` as a list. -/
def ParseError.toList (e : ParseError) : List ParseErrors := e.errorsHead :: e.errorsTail

/-- The `parseError` constructor. -/
def parseError (head : ParseErrors) (tail : List ParseErrors) : ParseError :=
  ⟨head, tail⟩

/-- The inner wrapped sequence of a composite error variant (empty for
the non-composite variants). -/
def ParseErrors.inner : ParseErrors → List ParseErrors
  | .index _ h t => h :: t
  | .key _ h t => h :: t
  | .unionMember h t => h :: t
  | _ => []

/-- `ParseResult`, restricted to its synchronous `Either` fast path (the
asynchronous channel is out of scope, see the `Forbidden` variant). -/
abbrev ParseResult (A : Type) : Type := Except ParseError A

/-- The `success` constructor. -/
def success {A : Type} (a : A) : ParseResult A := .ok a

/-- The `fail` constructor. -/
def fail {A : Type} (e : ParseError) : ParseResult A := .error e

/-- The `failure` constructor: a single-entry `ParseError`. -/
def failure {A : Type} (e : ParseErrors) : ParseResult A := .error ⟨e, []⟩

/-- The `failures` constructor: a non-empty entry sequence. -/
def failures {A : Type} (head : ParseErrors) (tail : List ParseErrors) : ParseResult A :=
  .error ⟨head, tail⟩

/-- C8: every `ParseError` wraps a non-empty ordered entry sequence,
every composite variant (Index, Key, UnionMember) wraps a non-empty
inner sequence, and a decode/encode result is either a success value or
exactly one `ParseError` — never both, never an error with zero
entries. -/
theorem parse_error_nonempty_spec (A : Type) :
    (∀ e : ParseError, 0 < e.toList.length)
    ∧ (∀ i h t, 0 < (ParseErrors.index i h t).inner.length)
    ∧ (∀ k h t, 0 < (ParseErrors.key k h t).inner.length)
    ∧ (∀ h t, 0 < (ParseErrors.unionMember h t).inner.length)
    ∧ (∀ r : ParseResult A, (∃ a, r = success a) ∨ (∃ e, r = fail e))
    ∧ (∀ a : A, exceptIsOk (success a : ParseResult A) = true)
    ∧ (∀ e : ParseError, exceptIsOk (fail e : ParseResult A) = false)
    ∧ (∀ e : ParseErrors, (failure e : ParseResult A) = fail ⟨e, []⟩
        ∧ (ParseError.mk e []).toList = [e])
    ∧ (∀ head tail, (failures head tail : ParseResult A) = fail ⟨head, tail⟩
        ∧ (ParseError.mk head tail).toList = head :: tail) := by
  refine ⟨?_, ?_, ?_, ?_, ?_, ?_, ?_, ?_, ?_⟩
  · intro e
    simp [ParseError.toList]
  · intro i h t
    simp [ParseErrors.inner]
  · intro k h t
    simp [ParseErrors.inner]
  · intro h t
    simp [ParseErrors.inner]
  · intro r
    cases r with
    | ok a => exact Or.inl ⟨a, rfl⟩
    | error e => exact Or.inr ⟨e, rfl⟩
  · intro a
    rfl
  · intro e
    rfl
  · intro e
    exact ⟨rfl, rfl⟩
  · intro head tail
    exact ⟨rfl, rfl⟩

mutual

/-- Structural equality on runtime values (the structural `Equal` used
when error entries are de-duplicated). -/
def valueBeq : Value → Value → Bool
  | .vnull, b =>
      match b with
      | .vnull => true
      | _ => false
  | .vundefined, b =>
      match b with
      | .vundefined => true
      | _ => false
  | .vstr s, b =>
      match b with
      | .vstr s2 => decide (s = s2)
      | _ => false
  | .vnum n, b =>
      match b with
      | .vnum n2 => decide (n = n2)
      | _ => false
  | .vbool x, b =>
      match b with
      | .vbool x2 => decide (x = x2)
      | _ => false
  | .vbig n, b =>
      match b with
      | .vbig n2 => decide (n = n2)
      | _ => false
  | .vsym s, b =>
      match b with
      | .vsym s2 => decide (s = s2)
      | _ => false
  | .vobj kvs, b =>
      match b with
      | .vobj kvs2 => valuePairListBeq kvs kvs2
      | _ => false
  | .varr xs, b =>
      match b with
      | .varr xs2 => valueListBeq xs xs2
      | _ => false
termination_by structural v _ => v

def valueListBeq : List Value → List Value → Bool
  | [], [] => true
  | v :: vs, w :: ws => valueBeq v w && valueListBeq vs ws
  | _, _ => false
termination_by structural l _ => l

def valuePairListBeq : List (PropertyKey × Value) → List (PropertyKey × Value) → Bool
  | [], [] => true
  | (k, v) :: kvs, (k2, v2) :: kvs2 =>
      decide (k = k2) && valueBeq v v2 && valuePairListBeq kvs kvs2
  | _, _ => false
termination_by structural l _ => l

end

mutual

/-- Structural equality on `ParseErrors` entries. -/
def parseErrorsBeq : ParseErrors → ParseErrors → Bool
  | .type_ e1 a1 m1, b =>
      match b with
      | .type_ e2 a2 m2 => astBeq e1 e2 && valueBeq a1 a2 && decide (m1 = m2)
      | _ => false
  | .forbidden, b =>
      match b with
      | .forbidden => true
      | _ => false
  | .index i1 h1 t1, b =>
      match b with
      | .index i2 h2 t2 => decide (i1 = i2) && parseErrorsBeq h1 h2 &&
          parseErrorsListBeq t1 t2
      | _ => false
  | .key k1 h1 t1, b =>
      match b with
      | .key k2 h2 t2 => decide (k1 = k2) && parseErrorsBeq h1 h2 &&
          parseErrorsListBeq t1 t2
      | _ => false
  | .missing, b =>
      match b with
      | .missing => true
      | _ => false
  | .unexpected a1, b =>
      match b with
      | .unexpected a2 => valueBeq a1 a2
      | _ => false
  | .unionMember h1 t1, b =>
      match b with
      | .unionMember h2 t2 => parseErrorsBeq h1 h2 && parseErrorsListBeq t1 t2
      | _ => false
termination_by structural e _ => e

def parseErrorsListBeq : List ParseErrors → List ParseErrors → Bool
  | [], [] => true
  | e :: es, f :: fs => parseErrorsBeq e f && parseErrorsListBeq es fs
  | _, _ => false
termination_by structural l _ => l

end

/-- `ReadonlyArray.uniq` with an explicit structural-equality test. -/
def uniqListBy {α : Type} (beq : α → α → Bool) (acc : List α) : List α → List α
  | [] => acc
  | a :: as =>
      if acc.any (fun x => beq x a) then uniqListBy beq acc as
      else uniqListBy beq (acc ++ [a]) as

/-- Modelled from the spec: property lookup on a generic keyed object. -/
def lookupKey (kvs : List (PropertyKey × Value)) (k : PropertyKey) : Option Value :=
  match kvs with
  | [] => none
  | (k2, v) :: rest => if k2 = k then some v else lookupKey rest k

/-- Modelled from the spec: the direct predicate check of a `Literal`
node against a concrete value (exact-value match). -/
def isLiteralMatch (l : Literal) (v : Value) : Bool :=
  match l, v with
  | .lstr s, .vstr s2 => decide (s = s2)
  | .lnum n, .vnum n2 => decide (n = n2)
  | .lbool b, .vbool b2 => decide (b = b2)
  | .lnull, .vnull => true
  | .lbig n, .vbig n2 => decide (n = n2)
  | _, _ => false

/-- An error entry of the field-presence kind: `Key k [Missing]`. -/
def isKeyMissing : ParseErrors → Bool
  | .key _ .missing [] => true
  | _ => false

/-- Modelled from the spec (the decode engine is not under `src/`): the
union failure aggregation of §4.2 rule 3. If every entry of every
member's failure is of the field-presence kind `Key _ [Missing]`, the
entries are concatenated and de-duplicated structurally, reporting one
entry per distinct key rather than one per member; otherwise each
member's failure is wrapped in `UnionMember` and all are surfaced
together. An empty member list cannot arise from smart-constructed
unions and is mapped to a `Type` failure against `never`. -/
def aggregateUnionErrors (errs : List ParseError) (v : Value) : ParseError :=
  match errs with
  | [] => ⟨.type_ (.neverKeyword []) v none, []⟩
  | pe :: pes =>
      let entries := pe.errorsHead :: (pe.errorsTail ++ pes.flatMap ParseError.toList)
      if entries.all isKeyMissing then
        match uniqListBy parseErrorsBeq [] entries with
        | [] => ⟨.forbidden, []⟩
        | h :: t => ⟨h, t⟩
      else
        ⟨.unionMember pe.errorsHead pe.errorsTail,
          pes.map (fun q => .unionMember q.errorsHead q.errorsTail)⟩

mutual

/-- Modelled from the spec (the decode engine is not under `src/`): the
decode direction of `run(ast, input, config)` at the default
configuration (`errors: first`, `onExcessProperty: ignore`), restricted
to the fragment the aggregation claim exercises — literal, string and
number keywords, `never`, structs made of fields (no index signatures),
and unions. Struct fields are checked in their stored
cardinality-ascending order, a missing required field fails with
`Key key [Missing]`, a field mismatch is wrapped in `Key key`, and a
missing optional field is omitted. Node kinds outside this fragment are
mapped to a `Type` failure. Member successes short-circuit (the
multi-success best-output merge of §4.2 rule 2 is outside the modelled
fragment and outside the claim). -/
def decode : AST → Value → ParseResult Value
  | ast@(.literalType l _), v =>
      if isLiteralMatch l v then .ok v else .error ⟨.type_ ast v none, []⟩
  | ast@(.stringKeyword _), v =>
      match v with
      | .vstr _ => .ok v
      | _ => .error ⟨.type_ ast v none, []⟩
  | ast@(.numberKeyword _), v =>
      match v with
      | .vnum _ => .ok v
      | _ => .error ⟨.type_ ast v none, []⟩
  | ast@(.neverKeyword _), v => .error ⟨.type_ ast v none, []⟩
  | ast@(.struct fs _ _ _), v =>
      match v with
      | .vobj kvs =>
          match decodeFields fs kvs with
          | .error e => .error e
          | .ok out => .ok (.vobj out)
      | _ => .error ⟨.type_ ast v none, []⟩
  | .union ms _, v => decodeMembers ms v []
  | ast, v => .error ⟨.type_ ast v none, []⟩
termination_by structural a _ => a

/-- Modelled from the spec: struct fields in stored order, stopping at
the first failure (`errors: first`). -/
def decodeFields : List Field → List (PropertyKey × Value) →
    Except ParseError (List (PropertyKey × Value))
  | [], _ => .ok []
  | .mk k fv fopt _ _ :: fs, kvs =>
      match lookupKey kvs k with
      | none =>
          if fopt then decodeFields fs kvs
          else .error ⟨.key k .missing [], []⟩
      | some v =>
          match decode fv v with
          | .error e => .error ⟨.key k e.errorsHead e.errorsTail, []⟩
          | .ok v2 =>
              match decodeFields fs kvs with
              | .error e => .error e
              | .ok out => .ok ((k, v2) :: out)
termination_by structural l _ => l

/-- Modelled from the spec: union members in stored (weight-descending)
order, collecting each member's failure for aggregation. -/
def decodeMembers : List AST → Value → List ParseError → ParseResult Value
  | [], v, errs => .error (aggregateUnionErrors errs v)
  | m :: ms, v, errs =>
      match decode m v with
      | .ok out => .ok out
      | .error e => decodeMembers ms v (errs ++ [e])
termination_by structural l _ _ => l

end

/-- The schema of the aggregation test:
`union(struct({a: literal(1), c: string}), struct({b: literal(2), d: number}))`. -/
def unionMissingKeysSchema : AST :=
  union
    [struct [.mk (.pstr "a") (.literalType (.lnum 1) []) false false [],
        .mk (.pstr "c") stringC false false []] [] [] false,
      struct [.mk (.pstr "b") (.literalType (.lnum 2) []) false false [],
        .mk (.pstr "d") numberC false false []] [] [] false]
    []

/-- C3: decoding the empty object against the union of
`struct({a: literal(1), c: string})` and `struct({b: literal(2),
d: number})` fails with a single aggregated error whose entries are
exactly `Key "a" [Missing]` and `Key "b" [Missing]` — one Missing entry
per distinct missing key, not one duplicated set per union member. -/
theorem decode_union_missing_key_dedup :
    decode unionMissingKeysSchema (.vobj []) =
      .error (parseError (.key (.pstr "a") .missing []) [.key (.pstr "b") .missing []])
    ∧ (ParseError.toList
        (parseError (.key (.pstr "a") .missing []) [.key (.pstr "b") .missing []])).countP
        (fun x => parseErrorsBeq x (.key (.pstr "a") .missing [])) = 1
    ∧ (ParseError.toList
        (parseError (.key (.pstr "a") .missing []) [.key (.pstr "b") .missing []])).countP
        (fun x => parseErrorsBeq x (.key (.pstr "b") .missing [])) = 1 :=
  ⟨rfl, rfl, rfl⟩

end Schema
